import Mathlib

/-!
Shallow embedding of the Telegram bot pipeline from src/src/bot/bot.ts
(class BotApp and helpers), together with proofs about the claims of the
specification. Stateful handler methods are embedded as pure functions from
their inputs (the normalized message, the sender id, the collaborator
results) to the ordered list of observable events they produce: outbound
replies, transcript-store writes, pacing delays, and completion-service
calls. JavaScript string truthiness and String(x) coercions are modelled
explicitly.
-/

/-- The transcript entry type tag: `type: 'text' | 'photo'` in bot.ts. -/
inductive EntryType where
  | text
  | photo
deriving DecidableEq

/-- Modelled from the spec: the `MessageEntity` record (module
`../entities/messages` is not under src). The spec's data model fixes the
fields `payload`, `userId`, `senderId`, `type` and the optional explicit
`order` used only by batched writes; `init()` with no argument leaves
`order` absent and `init(order)` sets it. The fields below are exactly the
ones bot.ts passes to the `MessageEntity` constructor. -/
structure MessageEntity where
  payload : String
  userId : String
  senderId : String
  type : EntryType
  order : Option Nat := none
deriving DecidableEq

/-- One observable action of the pipeline, in program order: an outbound
reply (`ctx.reply`), a single store write (`azureTableMessageClient.insert`),
a batched store write (`insertBatch`), a pacing delay (`delay(ms)`), a text
completion call (`aiClient.chat(persona, inputs, context)`), or an image
completion call (`aiClient.chatWithImage(persona, inputs, imageUrl)`). -/
inductive Ev where
  | reply (s : String)
  | insert (e : MessageEntity)
  | insertBatch (es : List MessageEntity)
  | delayMs (n : Nat)
  | chatCall (persona : String) (inputs : List String) (context : List String)
  | chatWithImageCall (persona : String) (inputs : List String) (imageUrl : String)
deriving DecidableEq

/-- Modelled from the spec: the localization table `t` (module
`./languages`) is not under src; the spec fixes this user-visible notice
string ("cannot understand message type"). -/
def tCannotUnderstandMessageType : String := "cannot understand message type"

/-- Modelled from the spec: the "cannot understand" notice from the
localization table `t`, which is not under src. -/
def tCannotUnderstand : String := "cannot understand"

/-- Modelled from the spec: the "reading image" notice from the
localization table `t`, which is not under src. -/
def tReadingImage : String := "reading image"

/-- JavaScript `String(x)` applied to `ctx.from?.id : number | undefined`:
renders the number, or the string "undefined" when the value is absent. -/
def jsString (o : Option Nat) : String :=
  match o with
  | some n => toString n
  | none => "undefined"

/-- JavaScript truthiness of a `string | undefined` value: `undefined` and
the empty string are falsy, every other string is truthy. -/
def truthy (o : Option String) : Bool :=
  match o with
  | some s => s != ""
  | none => false

/-- JavaScript `a || b` on `string | undefined` values: yields `a` when `a`
is truthy, otherwise `b`. Used for `messages.text || messages.caption` in
`allMessagesHandler`. -/
def jsOr (a b : Option String) : Option String :=
  if truthy a then a else b

/-- `TelegramApiClient.getFileUrl` from bot.ts: the template
`baseUrl + "/file/bot" + botToken + "/" + filePath` with
`baseUrl = "https://api.telegram.org"`. -/
def getFileUrl (botToken filePath : String) : String :=
  "https://api.telegram.org" ++ "/file/bot" ++ botToken ++ "/" ++ filePath

/-- `b` is a prefix of `s` (character lists). Used to model literal regex
matching at a position. -/
def leadsB : List Char → List Char → Bool
  | [], _ => true
  | _ :: _, [] => false
  | a :: as, b :: bs => a == b && leadsB as bs

/-- `t` occurs as a contiguous substring somewhere in `w`. -/
def occursB (t : List Char) : List Char → Bool
  | [] => leadsB t []
  | c :: rest => leadsB t (c :: rest) || occursB t rest

/-- Global (leftmost, non-overlapping, single pass) replacement of the
literal pattern `t` by `p`, the semantics of JavaScript
`text.replace(new RegExp(lit, 'g'), rep)` for a pattern string `lit` with
no regex metacharacters. When a match is found at the current position the
scan resumes after the matched characters; replacement text is never
rescanned. The degenerate empty pattern (which in JavaScript matches at
every boundary) is not modelled; every theorem about it below assumes a
nonempty pattern. -/
def replaceAllL (t p : List Char) : List Char → List Char
  | [] => []
  | c :: rest =>
    if leadsB t (c :: rest) && !t.isEmpty then
      p ++ replaceAllL t p (rest.drop (t.length - 1))
    else
      c :: replaceAllL t p rest
termination_by s => s.length
decreasing_by
  · simp only [List.length_cons, List.length_drop]
    omega
  · simp only [List.length_cons]
    omega

/-- The fixed placeholder string written by `maskBotToken`: a dollar sign
followed by BOT_TOKEN in doubled braces (the TS literal on line 116 of
bot.ts). -/
def placeholderS : String := "$\x7b\x7bBOT_TOKEN\x7d\x7d"

/-- The placeholder as a character list. -/
def placeholderChars : List Char := placeholderS.data

/-- The characters that are metacharacters in a JavaScript regular
expression pattern; a pattern string avoiding all of them matches exactly
its literal self. -/
def regexMetaChars : List Char :=
  ['\\', '^', '$', '.', '|', '?', '*', '+', '(', ')', '[', ']', '\x7b', '\x7d']

/-- The two actions of `BotApp.maskBotToken`. -/
inductive MaskAction where
  | mask
  | unmask
deriving DecidableEq

/-- `BotApp.maskBotToken` from bot.ts lines 115-118.
mask: `text.replace(new RegExp(this.options.botToken, 'g'), lit)` where
`lit` is the placeholder; for a bot token containing no regex
metacharacter this is global literal replacement (the placeholder is
inserted verbatim: in a replacement string a dollar sign followed by an
open brace is not a substitution pattern).
unmask: `text.replace(new RegExp(lit, 'g'), this.options.botToken)` —
here `lit` is used as a regex pattern, in which the unescaped leading
dollar sign is an end-of-input anchor and the brace groups are literal
characters (they are not valid quantifiers); a pattern that requires
thirteen literal characters after the end of the input never matches, so
the replace returns its input unchanged. -/
def maskBotToken (botToken text : String) (action : MaskAction) : String :=
  match action with
  | MaskAction.mask => String.mk (replaceAllL botToken.data placeholderChars text.data)
  | MaskAction.unmask => text

/-- The normalized inbound message assembled at the top of
`allMessagesHandler` (interface `TelegramMessageType` in bot.ts); each
field is a `string | undefined` extracted from the raw update by the
platform client, which is external to this embedding. -/
structure TelegramMessageType where
  replyToMessage : Option String
  text : Option String
  caption : Option String
  photo : Option String

/-- The delivery loop of `handleMessageText` (bot.ts lines 224-231): for
each output, a falsy (empty) output is skipped; otherwise a fixed 100ms
delay is awaited and the output is sent. -/
def deliveryLoop : List String → List Ev
  | [] => []
  | m :: rest =>
    if m == "" then deliveryLoop rest
    else Ev.delayMs 100 :: Ev.reply m :: deliveryLoop rest

/-- The `countNoResponse` tally of `handleMessageText` (bot.ts lines
223-228): the number of falsy (empty) outputs. -/
def countNoResponse : List String → Nat
  | [] => 0
  | m :: rest => (if m == "" then 1 else 0) + countNoResponse rest

/-- `BotApp.handlePhoto` from bot.ts lines 120-149, as the list of events
it performs, in order. `aiResult` is the value returned by
`aiClient.chatWithImage` (a `string | undefined`); the guard
`if (!message)` treats `undefined` and the empty string as unusable. -/
def handlePhoto (botToken : String) (fromId : Option Nat) (photoUrl : String)
    (caption : Option String) (aiResult : Option String) : List Ev :=
  [Ev.reply (tReadingImage ++ "...")]
  ++ (if truthy caption then
        [Ev.insert { payload := caption.getD "", userId := jsString fromId,
                     senderId := jsString fromId, type := EntryType.text, order := none }]
      else [])
  ++ [Ev.insert { payload := maskBotToken botToken photoUrl MaskAction.mask,
                  userId := jsString fromId, senderId := jsString fromId,
                  type := EntryType.photo, order := none }]
  ++ [Ev.chatWithImageCall "friend" (if truthy caption then [caption.getD ""] else []) photoUrl]
  ++ (if truthy aiResult then
        [Ev.reply (aiResult.getD ""),
         Ev.insert { payload := aiResult.getD "", userId := jsString fromId,
                     senderId := jsString fromId, type := EntryType.text, order := none }]
      else [Ev.reply tCannotUnderstand])

/-- `BotApp.handleMessageText` from bot.ts lines 196-236, as the list of
events it performs, in order. `aiAvailable` models the `if (!aiClient)`
guard; `chatResult` is the list returned by `aiClient.chat`. The joined
transcript payload uses the separator of the TS source line 218, the TWO
characters backslash and n (the TS literal is an escaped backslash
followed by n, not a newline escape). -/
def handleMessageText (fromId : Option Nat) (aiAvailable : Bool)
    (incomingMessage replyToMessage : Option String) (chatResult : List String) : List Ev :=
  if aiAvailable = false then
    [Ev.reply (tCannotUnderstand ++ " (aiClient is not available)")]
  else if truthy incomingMessage = false then
    [Ev.reply "Please send a text message"]
  else
    let msg := incomingMessage.getD ""
    let previousMessage : List String :=
      if truthy replyToMessage then ["Previous message: " ++ replyToMessage.getD ""] else []
    [Ev.chatCall "friend" [msg] previousMessage]
    ++ [Ev.insert { payload := String.intercalate "\\n" chatResult,
                    userId := jsString fromId, senderId := "0",
                    type := EntryType.text, order := none }]
    ++ deliveryLoop chatResult
    ++ (if countNoResponse chatResult == chatResult.length then
          [Ev.reply tCannotUnderstand]
        else [])

/-- `BotApp.allMessagesHandler` from bot.ts lines 151-194, as the list of
events it performs, in order. The raw grammy context is external; the
handler is embedded from the already-classified `TelegramMessageType`
record it builds, plus `ctx.from?.id`, the bot token, and the two
completion-service results (`imageAi` for the photo branch, `textAi` for
the text branch). -/
def allMessagesHandler (botToken : String) (fromId : Option Nat)
    (msgs : TelegramMessageType) (imageAi : Option String) (textAi : List String) : List Ev :=
  if msgs.text == none && msgs.caption == none && msgs.photo == none then
    [Ev.reply tCannotUnderstandMessageType]
  else
    let incomingMessage := jsOr msgs.text msgs.caption
    if truthy msgs.photo then
      handlePhoto botToken fromId (getFileUrl botToken (msgs.photo.getD ""))
        incomingMessage imageAi
    else if truthy incomingMessage = false || fromId == none then
      [Ev.reply tCannotUnderstand]
    else
      Ev.insert { payload := incomingMessage.getD "", userId := jsString fromId,
                  senderId := jsString fromId, type := EntryType.text, order := none }
      :: handleMessageText fromId true incomingMessage msgs.replyToMessage textAi

/-- The batch of entities built by the loop of `BotApp.saveTextMessages`
(bot.ts lines 238-251): one entity per message, `order` set to the loop
index via `init(order)`, `senderId` from the `senderId` parameter and
`userId` from `ctx.from?.id`. -/
def batchEntities (fromId : Option Nat) (msgs : List String) (senderId : Nat) :
    List MessageEntity :=
  msgs.enum.map fun pr =>
    { payload := pr.2, userId := jsString fromId, senderId := toString senderId,
      type := EntryType.text, order := some pr.1 }

/-- `BotApp.saveTextMessages` from bot.ts lines 238-251 as its event list:
the whole batch is submitted through a single `insertBatch` call. -/
def saveTextMessages (fromId : Option Nat) (msgs : List String) (senderId : Nat) : List Ev :=
  [Ev.insertBatch (batchEntities fromId msgs senderId)]

/-- The outbound replies of an event trace, in order. -/
def replies (evs : List Ev) : List String :=
  evs.filterMap fun e => match e with | Ev.reply s => some s | _ => none

/-- The single-entry store writes of an event trace, in order. -/
def storeInserts (evs : List Ev) : List MessageEntity :=
  evs.filterMap fun e => match e with | Ev.insert en => some en | _ => none

/-- The context lists passed to text completion calls in a trace. -/
def chatContexts (evs : List Ev) : List (List String) :=
  evs.filterMap fun e => match e with | Ev.chatCall _ _ ctxl => some ctxl | _ => none

/-- The input lists passed to image completion calls in a trace. -/
def imageChatInputs (evs : List Ev) : List (List String) :=
  evs.filterMap fun e => match e with | Ev.chatWithImageCall _ ins _ => some ins | _ => none

theorem leadsB_nil_iff {t : List Char} : leadsB t [] = true ↔ t = [] := by
  cases t <;> simp [leadsB]

theorem leadsB_refl (t : List Char) : leadsB t t = true := by
  induction t with
  | nil => rfl
  | cons a as ih => simp [leadsB, ih]

theorem leadsB_mem {u p : List Char} (h : leadsB u p = true) : ∀ c ∈ u, c ∈ p := by
  induction u generalizing p with
  | nil => simp
  | cons a as ih =>
    cases p with
    | nil => simp [leadsB] at h
    | cons b bs =>
      simp only [leadsB, Bool.and_eq_true, beq_iff_eq] at h
      intro c hc
      rcases List.mem_cons.mp hc with hc | hc
      · exact List.mem_cons.mpr (Or.inl (hc.trans h.1))
      · exact List.mem_cons.mpr (Or.inr (ih h.2 c hc))

theorem occursB_of_leadsB {t w : List Char} (h : leadsB t w = true) : occursB t w = true := by
  cases w <;> simp [occursB, h]

theorem occursB_cons_false {t : List Char} {c : Char} {rest : List Char}
    (h : occursB t (c :: rest) = false) :
    leadsB t (c :: rest) = false ∧ occursB t rest = false := by
  simpa [occursB, Bool.or_eq_false_iff] using h

theorem getLastMem {u : List Char} (h : u ≠ []) : ∃ l, u.getLast? = some l ∧ l ∈ u := by
  induction u with
  | nil => exact absurd rfl h
  | cons a as ih =>
    cases as with
    | nil => exact ⟨a, rfl, List.mem_singleton.mpr rfl⟩
    | cons b bs =>
      obtain ⟨l, hl, hm⟩ := ih (by simp)
      exact ⟨l, by simpa [List.getLast?_cons_cons] using hl, List.mem_cons.mpr (Or.inr hm)⟩

theorem getLastCons {u : List Char} {b : Char} (h : u ≠ []) :
    (b :: u).getLast? = u.getLast? := by
  cases u with
  | nil => exact absurd rfl h
  | cons x xs => simp [List.getLast?_cons_cons]

theorem leadsB_append_cases :
    ∀ (q u R : List Char), leadsB u (q ++ R) = true →
      leadsB u q = true ∨ (leadsB q u = true ∧ leadsB (u.drop q.length) R = true) := by
  intro q
  induction q with
  | nil => intro u R h; exact Or.inr ⟨rfl, by simpa using h⟩
  | cons a q' ih =>
    intro u R h
    cases u with
    | nil => exact Or.inl rfl
    | cons b u' =>
      simp only [List.cons_append, leadsB, Bool.and_eq_true, beq_iff_eq] at h
      rcases ih u' R h.2 with h1 | ⟨h2, h3⟩
      · exact Or.inl (by simp [leadsB, h.1, h1])
      · exact Or.inr ⟨by simp [leadsB, h.1.symm, h2], by simpa using h3⟩

theorem occursB_append_elim {t : List Char} (ht : t ≠ []) :
    ∀ (q R : List Char), (∀ c ∈ q, t.head? ≠ some c) → occursB t (q ++ R) = true →
      occursB t R = true := by
  intro q
  induction q with
  | nil => intro R _ h; simpa using h
  | cons a q' ih =>
    intro R hq h
    simp only [List.cons_append, occursB, Bool.or_eq_true] at h
    rcases h with h | h
    · exfalso
      cases t with
      | nil => exact ht rfl
      | cons th tt =>
        simp only [leadsB, Bool.and_eq_true, beq_iff_eq] at h
        exact hq th (by simp [h.1]) (by simp)
    · exact ih R (fun c hc => hq c (List.mem_cons.mpr (Or.inr hc))) h

theorem replaceAllL_nil {t p : List Char} : replaceAllL t p [] = [] := by
  simp [replaceAllL]

theorem replaceAllL_cons_pos {t p : List Char} {c : Char} {rest : List Char}
    (h : (leadsB t (c :: rest) && !t.isEmpty) = true) :
    replaceAllL t p (c :: rest) = p ++ replaceAllL t p (rest.drop (t.length - 1)) := by
  rw [replaceAllL, if_pos h]

theorem replaceAllL_cons_neg {t p : List Char} {c : Char} {rest : List Char}
    (h : (leadsB t (c :: rest) && !t.isEmpty) = false) :
    replaceAllL t p (c :: rest) = c :: replaceAllL t p rest := by
  rw [replaceAllL, if_neg (by simp [h])]

/-- Prefix reflection: a nonempty u that does not end with a character of p and does not
contain p can prefix the replacement output only if it prefixes the input. -/
theorem leadsB_replaceAllL_elim {t p : List Char} :
    ∀ (s u : List Char), u ≠ [] → (∀ c ∈ p, u.getLast? ≠ some c) → occursB p u = false →
      leadsB u (replaceAllL t p s) = true → leadsB u s = true := by
  intro s
  induction s with
  | nil =>
    intro u hu _ _ hlead
    rw [replaceAllL_nil] at hlead
    exact absurd (leadsB_nil_iff.mp hlead) hu
  | cons c rest ih =>
    intro u hu hlast hocc hlead
    by_cases hcond : (leadsB t (c :: rest) && !t.isEmpty) = true
    · rw [replaceAllL_cons_pos hcond] at hlead
      rcases leadsB_append_cases p u _ hlead with h1 | ⟨h2, _⟩
      · obtain ⟨l, hl, hm⟩ := getLastMem hu
        exact absurd hl (hlast l (leadsB_mem h1 l hm))
      · rw [occursB_of_leadsB h2] at hocc
        exact absurd hocc (by simp)
    · rw [replaceAllL_cons_neg (by simpa using hcond)] at hlead
      cases u with
      | nil => exact absurd rfl hu
      | cons b u' =>
        simp only [leadsB, Bool.and_eq_true, beq_iff_eq] at hlead ⊢
        refine ⟨hlead.1, ?_⟩
        cases hu' : u' with
        | nil => rfl
        | cons x xs =>
          have hne : u' ≠ [] := by simp [hu']
          rw [← hu']
          have hlast' : ∀ ch ∈ p, u'.getLast? ≠ some ch := by
            intro ch hch
            rw [← getLastCons hne]
            exact hlast ch hch
          have hocc' : occursB p u' = false := (occursB_cons_false hocc).2
          exact ih u' hne hlast' hocc' (by rw [hu'] at hlead ⊢; exact hlead.2)

/-- Replacing every occurrence of a nonempty token t by a placeholder p leaves no
occurrence of t, provided t does not start or end with a character of p and does not
contain p: an occurrence in the output would have to lie inside a copied region
(impossible: it would have been replaced) or overlap an inserted placeholder
(impossible by the boundary conditions). -/
theorem replaceAllL_no_occurs {t p : List Char} (ht : t ≠ [])
    (hh : ∀ c ∈ p, t.head? ≠ some c) (hl : ∀ c ∈ p, t.getLast? ≠ some c)
    (hocc : occursB p t = false) :
    ∀ s, occursB t (replaceAllL t p s) = false := by
  have main : ∀ n s, List.length s ≤ n → occursB t (replaceAllL t p s) = false := by
    intro n
    induction n with
    | zero =>
      intro s hs
      have : s = [] := List.length_eq_zero.mp (Nat.le_zero.mp hs)
      subst this
      rw [replaceAllL_nil]
      cases t with
      | nil => exact absurd rfl ht
      | cons a as => rfl
    | succ n ih =>
      intro s hs
      cases s with
      | nil =>
        rw [replaceAllL_nil]
        cases t with
        | nil => exact absurd rfl ht
        | cons a as => rfl
      | cons c rest =>
        by_cases hcond : (leadsB t (c :: rest) && !t.isEmpty) = true
        · rw [replaceAllL_cons_pos hcond]
          by_contra hcontra
          have htrue : occursB t (p ++ replaceAllL t p (rest.drop (t.length - 1))) = true := by
            revert hcontra
            cases occursB t (p ++ replaceAllL t p (rest.drop (t.length - 1))) <;> simp
          have h2 := occursB_append_elim ht p _ hh htrue
          have hlen : (rest.drop (t.length - 1)).length ≤ n := by
            have := List.length_drop (t.length - 1) rest
            simp only [List.length_cons] at hs
            omega
          rw [ih _ hlen] at h2
          exact Bool.false_ne_true h2
        · rw [replaceAllL_cons_neg (by simpa using hcond)]
          have hrest : occursB t (replaceAllL t p rest) = false := by
            apply ih
            simp only [List.length_cons] at hs
            omega
          have hleadfalse : leadsB t (c :: replaceAllL t p rest) = false := by
            by_contra hcontra
            have hlead : leadsB t (c :: replaceAllL t p rest) = true := by
              revert hcontra
              cases leadsB t (c :: replaceAllL t p rest) <;> simp
            cases t with
            | nil => exact absurd rfl ht
            | cons th tt =>
              simp only [leadsB, Bool.and_eq_true, beq_iff_eq] at hlead
              cases htt : tt with
              | nil =>
                have : (leadsB (th :: tt) (c :: rest) && !(th :: tt).isEmpty) = true := by
                  simp [leadsB, htt, hlead.1]
                exact absurd this hcond
              | cons x xs =>
                have httne : tt ≠ [] := by simp [htt]
                have hlast' : ∀ ch ∈ p, tt.getLast? ≠ some ch := by
                  intro ch hch
                  rw [← getLastCons httne]
                  exact hl ch hch
                have hocc' : occursB p tt = false := (occursB_cons_false hocc).2
                have hlead' : leadsB tt rest = true :=
                  leadsB_replaceAllL_elim rest tt httne hlast' hocc' hlead.2
                have : (leadsB (th :: tt) (c :: rest) && !(th :: tt).isEmpty) = true := by
                  simp [leadsB, hlead.1, hlead']
                exact absurd this hcond
          simp [occursB, hleadfalse, hrest]
  intro s
  exact main s.length s (Nat.le_refl _)

/-- Replacement is the identity on strings with no occurrence of the pattern. -/
theorem replaceAllL_of_no_occurs {t p : List Char} :
    ∀ {w : List Char}, occursB t w = false → replaceAllL t p w = w := by
  intro w
  induction w with
  | nil => intro _; exact replaceAllL_nil
  | cons c rest ih =>
    intro h
    obtain ⟨h1, h2⟩ := occursB_cons_false h
    rw [replaceAllL_cons_neg (by simp [h1]), ih h2]

theorem replaceAllL_self {t p : List Char} (ht : t ≠ []) : replaceAllL t p t = p := by
  cases t with
  | nil => exact absurd rfl ht
  | cons c t' =>
    rw [replaceAllL_cons_pos (by simp [leadsB_refl])]
    have : t'.drop ((c :: t').length - 1) = [] := by
      simp [List.drop_length]
    rw [this, replaceAllL_nil, List.append_nil]

theorem leadsB_append_self {t r : List Char} : leadsB t (t ++ r) = true := by
  induction t with
  | nil => rfl
  | cons a as ih => simp [leadsB, ih]

/-- occursB agrees with the existence of a substring decomposition. -/
theorem occursB_iff {t : List Char} :
    ∀ {w : List Char}, occursB t w = true ↔ ∃ x y, w = x ++ t ++ y := by
  intro w
  induction w with
  | nil =>
    simp only [occursB, leadsB_nil_iff]
    constructor
    · intro h; exact ⟨[], [], by simp [h]⟩
    · rintro ⟨x, y, hxy⟩
      have := congrArg List.length hxy
      simp only [List.length_nil, List.length_append] at this
      exact List.length_eq_zero.mp (by omega)
  | cons c rest ih =>
    simp only [occursB, Bool.or_eq_true]
    constructor
    · intro h
      rcases h with h | h
      · have : ∃ r, c :: rest = t ++ r := by
          clear ih
          induction t generalizing c rest with
          | nil => exact ⟨c :: rest, rfl⟩
          | cons a as iht =>
            simp only [leadsB, Bool.and_eq_true, beq_iff_eq] at h
            cases rest with
            | nil =>
              have : as = [] := by
                cases as with
                | nil => rfl
                | cons x xs => simp [leadsB] at h
              subst this
              exact ⟨[], by simp [h.1]⟩
            | cons c2 rest2 =>
              obtain ⟨r, hr⟩ := iht c2 rest2 h.2
              exact ⟨r, by simp [h.1, hr]⟩
        obtain ⟨r, hr⟩ := this
        exact ⟨[], r, by simpa using hr⟩
      · obtain ⟨x, y, hxy⟩ := ih.mp h
        exact ⟨c :: x, y, by simp [hxy]⟩
    · rintro ⟨x, y, hxy⟩
      cases x with
      | nil =>
        left
        simp only [List.nil_append] at hxy
        rw [hxy]
        exact leadsB_append_self
      | cons a x' =>
        right
        apply ih.mpr
        refine ⟨x', y, ?_⟩
        simpa using congrArg List.tail hxy

theorem deliveryLoop_cons_pos {m : String} {rest : List String} (hm : m = "") :
    deliveryLoop (m :: rest) = deliveryLoop rest := by
  simp [deliveryLoop, hm]

theorem deliveryLoop_cons_neg {m : String} {rest : List String} (hm : m ≠ "") :
    deliveryLoop (m :: rest) = Ev.delayMs 100 :: Ev.reply m :: deliveryLoop rest := by
  simp [deliveryLoop, hm]

theorem filter_cons_pos {m : String} {rest : List String} (hm : m ≠ "") :
    (m :: rest).filter (fun x => !(x == "")) = m :: rest.filter (fun x => !(x == "")) := by
  have hb : (!(m == "")) = true := by simp [hm]
  simp [List.filter, hb]

theorem filter_cons_neg {m : String} {rest : List String} (hm : m = "") :
    (m :: rest).filter (fun x => !(x == "")) = rest.filter (fun x => !(x == "")) := by
  have hb : (!(m == "")) = false := by simp [hm]
  simp [List.filter, hb]

theorem replies_deliveryLoop : ∀ res : List String,
    replies (deliveryLoop res) = res.filter (fun m => !(m == "")) := by
  intro res
  induction res with
  | nil => rfl
  | cons m rest ih =>
    by_cases hm : m = ""
    · rw [deliveryLoop_cons_pos hm, filter_cons_neg hm]
      exact ih
    · rw [deliveryLoop_cons_neg hm, filter_cons_pos hm]
      simp only [replies, List.filterMap_cons]
      simpa [replies] using ih

theorem deliveryLoop_flatMap : ∀ res : List String,
    deliveryLoop res = (res.filter (fun m => !(m == ""))).flatMap
      (fun m => [Ev.delayMs 100, Ev.reply m]) := by
  intro res
  induction res with
  | nil => rfl
  | cons m rest ih =>
    by_cases hm : m = ""
    · rw [deliveryLoop_cons_pos hm, filter_cons_neg hm]
      exact ih
    · rw [deliveryLoop_cons_neg hm, filter_cons_pos hm, List.flatMap_cons, ih]
      rfl

theorem chatContexts_deliveryLoop : ∀ res : List String,
    chatContexts (deliveryLoop res) = [] := by
  intro res
  induction res with
  | nil => rfl
  | cons m rest ih =>
    by_cases hm : m = ""
    · rw [deliveryLoop_cons_pos hm]
      exact ih
    · rw [deliveryLoop_cons_neg hm]
      simp only [chatContexts, List.filterMap_cons]
      simpa [chatContexts] using ih

theorem storeInserts_deliveryLoop : ∀ res : List String,
    storeInserts (deliveryLoop res) = [] := by
  intro res
  induction res with
  | nil => rfl
  | cons m rest ih =>
    by_cases hm : m = ""
    · rw [deliveryLoop_cons_pos hm]
      exact ih
    · rw [deliveryLoop_cons_neg hm]
      simp only [storeInserts, List.filterMap_cons]
      simpa [storeInserts] using ih

theorem countNoResponse_le : ∀ res : List String, countNoResponse res ≤ res.length := by
  intro res
  induction res with
  | nil => exact Nat.le_refl 0
  | cons m rest ih =>
    simp only [countNoResponse, List.length_cons]
    by_cases hm : m = "" <;> simp [hm] <;> omega

theorem countNoResponse_eq_iff : ∀ res : List String,
    (countNoResponse res = res.length) ↔ res.all (fun m => m == "") = true := by
  intro res
  induction res with
  | nil => simp [countNoResponse]
  | cons m rest ih =>
    simp only [countNoResponse, List.length_cons, List.all_cons, Bool.and_eq_true]
    by_cases hm : m = ""
    · rw [if_pos (by simpa using hm)]
      constructor
      · intro h
        exact ⟨by simp [hm], ih.mp (by omega)⟩
      · intro h
        have := ih.mpr h.2
        omega
    · rw [if_neg (by simpa using hm)]
      constructor
      · intro h
        exfalso
        have := countNoResponse_le rest
        omega
      · intro h
        exact absurd h.1 (by simp [hm])

/-- Claim C1, counterexample: for a text update replying to a prior message with text
"blue", the context list passed to the completion call is the one-element list containing
"Previous message: blue", not the one-element list containing the prior text "blue" that
the claim states. -/
theorem c1_counterexample :
    chatContexts (allMessagesHandler "TOK" (some 1)
        { replyToMessage := some "blue", text := some "hello", caption := none, photo := none }
        none ["ok"])
      = [["Previous message: blue"]]
    ∧ [["Previous message: blue"]] ≠ [["blue"]] := by
  constructor <;> decide

/-- Claim C1 (amended): for every text-branch update — text or caption present and
non-empty (the code's entry condition on `text || caption`), no photo — with a resolvable
sender, the context list passed to the completion call is empty when the update is not a
reply or the prior text is empty, and otherwise is exactly the one-element list
containing the prior message's text prefixed with "Previous message: ". -/
theorem c1_context_assembly (botToken : String) (uid : Nat)
    (text caption reply imageAi : Option String) (res : List String)
    (hin : truthy (jsOr text caption) = true) :
    chatContexts (allMessagesHandler botToken (some uid)
        { replyToMessage := reply, text := text, caption := caption, photo := none }
        imageAi res)
      = [match reply with
         | some r => if r = "" then [] else ["Previous message: " ++ r]
         | none => []] := by
  have hguard : ¬ ((text == none && caption == none && (none : Option String) == none)
      = true) := by
    intro h
    simp only [Bool.and_eq_true, beq_iff_eq] at h
    rw [h.1.1, h.1.2] at hin
    simp [jsOr, truthy] at hin
  simp only [allMessagesHandler]
  rw [if_neg hguard]
  rw [if_neg (by simp [truthy])]
  rw [if_neg (by simp [hin])]
  simp only [handleMessageText]
  rw [if_neg (by simp)]
  rw [if_neg (by simp [hin])]
  simp only [chatContexts, List.filterMap_cons, List.filterMap_append]
  rw [show List.filterMap _ (deliveryLoop res) = chatContexts (deliveryLoop res) from rfl,
    chatContexts_deliveryLoop]
  cases reply with
  | none => simp [truthy, chatContexts]
  | some r =>
    by_cases hr : r = ""
    · simp [truthy, hr, chatContexts]
    · simp [truthy, hr, chatContexts]

/-- Claim C2 (code bug, evaluated at the failing input): for a text update whose
completion call returns the outputs "hi" and "there", the full event trace shows that the
response transcript entry is written before any output is delivered, but its payload is
the outputs joined with the TWO-character separator backslash-n (the TS literal on source
line 218 is an escaped backslash followed by the letter n), which differs from the
newline join the claim states. -/
theorem c2_join_divergence :
    allMessagesHandler "TOK" (some 7)
        { replyToMessage := none, text := some "ping", caption := none, photo := none }
        none ["hi", "there"]
      = [Ev.insert { payload := "ping", userId := "7", senderId := "7",
                     type := EntryType.text, order := none },
         Ev.chatCall "friend" ["ping"] [],
         Ev.insert { payload := "hi\\nthere", userId := "7", senderId := "0",
                     type := EntryType.text, order := none },
         Ev.delayMs 100, Ev.reply "hi", Ev.delayMs 100, Ev.reply "there"]
    ∧ "hi\\nthere" ≠ "hi" ++ "\n" ++ "there" := by
  constructor <;> decide

/-- Claim C3 (code bug, evaluated at the failing input): for a photo update from sender
42 whose completion call returns the usable text "ok", the persisted generated-text entry
carries senderId "42" (the human sender), not the bot sentinel "0" that the claim and
the spec's data model require, and that the text branch itself uses. -/
theorem c3_senderid_divergence :
    ((storeInserts (allMessagesHandler "TOK" (some 42)
        { replyToMessage := none, text := none, caption := none, photo := some "p" }
        (some "ok") [])).map (fun e => (e.type, e.senderId, e.payload)))
      = [(EntryType.photo, "42",
          maskBotToken "TOK" (getFileUrl "TOK" "p") MaskAction.mask),
         (EntryType.text, "42", "ok")]
    ∧ "42" ≠ "0" := by
  constructor
  · rfl
  · decide

/-- Claim C8: for every inbound update with none of text, caption, or photo extractable,
the pipeline's entire event trace is a single reply carrying the fixed
unclassifiable-message-type notice: exactly one reply and zero store writes. -/
theorem c8_unclassifiable (botToken : String) (fromId : Option Nat) (r : Option String)
    (imageAi : Option String) (textAi : List String) :
    allMessagesHandler botToken fromId
        { replyToMessage := r, text := none, caption := none, photo := none }
        imageAi textAi
      = [Ev.reply tCannotUnderstandMessageType] := by
  simp [allMessagesHandler]

/-- The shape of the text-branch trace for a valid input: one completion call, the
joined-response store write, then the delivery loop and the possible notice. -/
theorem handleMessageText_shape (fromId : Option Nat) (msg : String) (reply : Option String)
    (res : List String) (hmsg : msg ≠ "") :
    handleMessageText fromId true (some msg) reply res
      = Ev.chatCall "friend" [msg]
          (if truthy reply then ["Previous message: " ++ reply.getD ""] else [])
        :: Ev.insert { payload := String.intercalate "\\n" res, userId := jsString fromId,
                       senderId := "0", type := EntryType.text, order := none }
        :: (deliveryLoop res
            ++ (if countNoResponse res == res.length then [Ev.reply tCannotUnderstand] else [])) := by
  have htr : truthy (some msg) = true := by simp [truthy, hmsg]
  simp only [handleMessageText, htr]
  rw [if_neg (by simp), if_neg (by simp [htr])]
  simp

/-- Claim C6: for every text-branch update, the outbound replies are exactly the
non-empty completion outputs in list order, followed by the "cannot understand" notice
exactly when every output was empty, and the delivery loop emits for each non-empty
output, in order, a fixed 100ms pacing delay followed by that reply; in particular the
outputs "hello", "", "world" produce exactly the replies "hello" then "world" with no
notice, and the outputs "", "" produce exactly the notice. -/
theorem c6_delivery_pacing :
    (∀ (fromId : Option Nat) (reply : Option String) (res : List String) (msg : String),
       msg ≠ "" →
       replies (handleMessageText fromId true (some msg) reply res)
         = res.filter (fun m => !(m == ""))
           ++ (if res.all (fun m => m == "") then [tCannotUnderstand] else [])
       ∧ deliveryLoop res
         = (res.filter (fun m => !(m == ""))).flatMap (fun m => [Ev.delayMs 100, Ev.reply m]))
    ∧ replies (handleMessageText (some 1) true (some "q") none ["hello", "", "world"])
        = ["hello", "world"]
    ∧ replies (handleMessageText (some 1) true (some "q") none ["", ""])
        = [tCannotUnderstand] := by
  refine ⟨?_, by decide, by decide⟩
  intro fromId reply res msg hmsg
  refine ⟨?_, deliveryLoop_flatMap res⟩
  rw [handleMessageText_shape fromId msg reply res hmsg]
  simp only [replies, List.filterMap_cons, List.filterMap_append]
  rw [show List.filterMap _ (deliveryLoop res) = replies (deliveryLoop res) from rfl,
    replies_deliveryLoop]
  by_cases hall : res.all (fun m => m == "") = true
  · rw [if_pos hall, if_pos (by simpa using (countNoResponse_eq_iff res).mpr hall)]
    simp
  · rw [if_neg hall]
    rw [if_neg (show ¬ ((countNoResponse res == res.length) = true) from by
      intro hc
      exact hall ((countNoResponse_eq_iff res).mp (by simpa using hc)))]
    simp

/-- Claim C7: for every photo-branch update carrying a non-empty caption, the inbound
unit produces exactly two store writes, the caption text entry strictly before the photo
entry, and the caption entry is attributed to the human sender; a third write occurs only
for a usable completion response. -/
theorem c7_caption_before_photo (botToken : String) (uid : Nat) (fp c : String)
    (ai : Option String) (hfp : fp ≠ "") (hc : c ≠ "") :
    storeInserts (allMessagesHandler botToken (some uid)
        { replyToMessage := none, text := none, caption := some c, photo := some fp } ai [])
      = { payload := c, userId := jsString (some uid), senderId := jsString (some uid),
          type := EntryType.text, order := none }
        :: { payload := maskBotToken botToken (getFileUrl botToken fp) MaskAction.mask,
             userId := jsString (some uid), senderId := jsString (some uid),
             type := EntryType.photo, order := none }
        :: (if truthy ai then
              [{ payload := ai.getD "", userId := jsString (some uid),
                 senderId := jsString (some uid), type := EntryType.text, order := none }]
            else []) := by
  have h1 : allMessagesHandler botToken (some uid)
      { replyToMessage := none, text := none, caption := some c, photo := some fp } ai []
      = handlePhoto botToken (some uid) (getFileUrl botToken fp) (some c) ai := by
    simp [allMessagesHandler, jsOr, truthy, hfp]
  rw [h1]
  have hcap : truthy (some c) = true := by simp [truthy, hc]
  simp only [handlePhoto, hcap, if_true, Option.getD]
  by_cases hai : truthy ai = true
  · simp [storeInserts, List.filterMap_append, List.filterMap_cons, hai]
  · simp only [Bool.not_eq_true] at hai
    simp [storeInserts, List.filterMap_append, List.filterMap_cons, hai]

theorem mapConstant {α β : Type} (l : List α) (b : β) :
    l.map (fun _ => b) = List.replicate l.length b := by
  induction l with
  | nil => rfl
  | cons x xs ih => simp [List.replicate, ih]

/-- Claim C9: for every ordered list of n message strings and a sender id, the batched
save constructs exactly n transcript entries whose explicit order values are 0..n-1
matching list position and whose payloads are the messages in order, all sharing the
invoking user's id (and all carrying the given sender id), submitted to the store in one
single batch-append call; in particular "a", "b", "c" yield order values 0, 1, 2. -/
theorem c9_batched_save :
    (∀ (fromId : Option Nat) (msgs : List String) (sid : Nat),
       saveTextMessages fromId msgs sid = [Ev.insertBatch (batchEntities fromId msgs sid)]
       ∧ (batchEntities fromId msgs sid).map MessageEntity.order
           = (List.range msgs.length).map some
       ∧ (batchEntities fromId msgs sid).map MessageEntity.payload = msgs
       ∧ (batchEntities fromId msgs sid).map MessageEntity.userId
           = List.replicate msgs.length (jsString fromId)
       ∧ (batchEntities fromId msgs sid).map MessageEntity.senderId
           = List.replicate msgs.length (toString sid))
    ∧ (batchEntities (some 7) ["a", "b", "c"] 42).map MessageEntity.order
        = [some 0, some 1, some 2] := by
  refine ⟨?_, by decide⟩
  intro fromId msgs sid
  refine ⟨rfl, ?_, ?_, ?_, ?_⟩
  · rw [batchEntities, List.map_map]
    have : (MessageEntity.order ∘ fun pr : Nat × String =>
        ({ payload := pr.2, userId := jsString fromId, senderId := toString sid,
           type := EntryType.text, order := some pr.1 } : MessageEntity))
        = (some ∘ Prod.fst) := rfl
    rw [this, ← List.map_map, List.enum_map_fst]
  · rw [batchEntities, List.map_map]
    exact List.enum_map_snd msgs
  · rw [batchEntities, List.map_map]
    have hfun : (MessageEntity.userId ∘ fun pr : Nat × String =>
        ({ payload := pr.2, userId := jsString fromId, senderId := toString sid,
           type := EntryType.text, order := some pr.1 } : MessageEntity))
        = (fun _ => jsString fromId) := rfl
    rw [hfun, mapConstant, List.enum_length]
  · rw [batchEntities, List.map_map]
    have hfun : (MessageEntity.senderId ∘ fun pr : Nat × String =>
        ({ payload := pr.2, userId := jsString fromId, senderId := toString sid,
           type := EntryType.text, order := some pr.1 } : MessageEntity))
        = (fun _ => toString sid) := rfl
    rw [hfun, mapConstant, List.enum_length]

/-- Claim C10: in the photo branch, the caption value used for the persisted caption
entry and for the image completion call's input list is the update's plain text body when
that is present and non-empty, falling back to the attached caption otherwise;
consequently a photo update with an empty-string caption and no text makes one image
completion call with an empty input list and persists no caption entry (its only inbound
write is the photo entry). -/
theorem c10_caption_fallback :
    (∀ (botToken : String) (fromId : Option Nat) (r text caption imageAi : Option String)
       (fp : String) (textAi : List String), fp ≠ "" →
       allMessagesHandler botToken fromId
           { replyToMessage := r, text := text, caption := caption, photo := some fp }
           imageAi textAi
         = handlePhoto botToken fromId (getFileUrl botToken fp) (jsOr text caption) imageAi
       ∧ jsOr text caption
           = (match text with
              | some s => if s = "" then caption else some s
              | none => caption))
    ∧ imageChatInputs (allMessagesHandler "TOK" (some 3)
        { replyToMessage := none, text := none, caption := some "", photo := some "p" } none [])
        = [[]]
    ∧ (storeInserts (allMessagesHandler "TOK" (some 3)
        { replyToMessage := none, text := none, caption := some "", photo := some "p" } none [])).map
          (fun e => (e.type, e.senderId))
        = [(EntryType.photo, "3")] := by
  refine ⟨?_, by rfl, by rfl⟩
  intro botToken fromId r text caption imageAi fp textAi hfp
  constructor
  · simp [allMessagesHandler, truthy, hfp]
  · cases text with
    | none => simp [jsOr, truthy]
    | some s =>
      by_cases hs : s = ""
      · simp [jsOr, truthy, hs]
      · simp [jsOr, truthy, hs]

/-- Claim C4 (code bug, evaluated at the failing input): with bot token "123:xyz",
masking the token itself yields the placeholder, and applying unmask to that masked text
returns it unchanged, because the unmask regex never matches (its unescaped leading
dollar sign is an end-of-input anchor); so unmask is not the inverse of mask:
unmask (mask s) differs from s for any s containing the token. -/
theorem c4_unmask_never_matches :
    maskBotToken "123:xyz" "123:xyz" MaskAction.mask = placeholderS
    ∧ maskBotToken "123:xyz"
        (maskBotToken "123:xyz" "123:xyz" MaskAction.mask) MaskAction.unmask
      = placeholderS
    ∧ placeholderS ≠ "123:xyz" := by
  have h1 : maskBotToken "123:xyz" "123:xyz" MaskAction.mask = placeholderS := by
    show String.mk (replaceAllL "123:xyz".data placeholderChars "123:xyz".data) = placeholderS
    rw [replaceAllL_self (by decide)]
    rfl
  exact ⟨h1, by rw [h1]; rfl, by decide⟩

/-- Claim C5: for every input string s, mask (unmask (mask s)) = mask s, and the output
of mask never contains the secret token as a substring. The hypotheses on the token are
the conditions under which the embedding is faithful and the property holds: the token is
nonempty and free of regex metacharacters (so the masking regex matches exactly the
literal token), and it neither contains the placeholder nor begins or ends with a
character of the placeholder (so inserting the placeholder cannot create a fresh token
occurrence). -/
theorem c5_mask_stable (tok s : String)
    (h1 : tok.data ≠ [])
    (h2 : ∀ ch ∈ tok.data, ch ∉ regexMetaChars)
    (h3 : ∀ ch ∈ placeholderChars, tok.data.head? ≠ some ch)
    (h4 : ∀ ch ∈ placeholderChars, tok.data.getLast? ≠ some ch)
    (h5 : occursB placeholderChars tok.data = false) :
    maskBotToken tok (maskBotToken tok (maskBotToken tok s MaskAction.mask) MaskAction.unmask)
        MaskAction.mask
      = maskBotToken tok s MaskAction.mask
    ∧ ∀ x y, (maskBotToken tok s MaskAction.mask).data ≠ x ++ tok.data ++ y := by
  have hno : occursB tok.data (replaceAllL tok.data placeholderChars s.data) = false :=
    replaceAllL_no_occurs h1 h3 h4 h5 s.data
  constructor
  · exact congrArg String.mk (replaceAllL_of_no_occurs hno)
  · intro x y hxy
    have h := occursB_iff.mpr ⟨x, y, hxy⟩
    rw [show (maskBotToken tok s MaskAction.mask).data
        = replaceAllL tok.data placeholderChars s.data from rfl] at h
    rw [hno] at h
    exact Bool.false_ne_true h

/-- Witness: the amended claim C1 theorem applied at a concrete replied-to update of the
caption-only kind (text absent, non-empty caption, no photo). -/
theorem c1_context_assembly_witness :
    truthy (jsOr none (some "cap")) = true
    ∧ chatContexts (allMessagesHandler "TOK" (some 1)
        { replyToMessage := some "blue", text := none, caption := some "cap", photo := none }
        none ["ok"])
      = [match some "blue" with
         | some r => if r = "" then [] else ["Previous message: " ++ r]
         | none => []] :=
  ⟨by decide, c1_context_assembly "TOK" 1 none (some "cap") (some "blue") none ["ok"]
    (by decide)⟩

/-- Witness: the claim C5 theorem applied at the concrete token "123:xyz". -/
theorem c5_mask_stable_witness :
    ("123:xyz".data ≠ []
     ∧ (∀ ch ∈ "123:xyz".data, ch ∉ regexMetaChars)
     ∧ (∀ ch ∈ placeholderChars, "123:xyz".data.head? ≠ some ch)
     ∧ (∀ ch ∈ placeholderChars, "123:xyz".data.getLast? ≠ some ch)
     ∧ occursB placeholderChars "123:xyz".data = false)
    ∧ (maskBotToken "123:xyz"
         (maskBotToken "123:xyz" (maskBotToken "123:xyz" "ok 123:xyz" MaskAction.mask)
           MaskAction.unmask) MaskAction.mask
         = maskBotToken "123:xyz" "ok 123:xyz" MaskAction.mask
       ∧ ∀ x y, (maskBotToken "123:xyz" "ok 123:xyz" MaskAction.mask).data
           ≠ x ++ "123:xyz".data ++ y) :=
  ⟨⟨by decide, by decide, by decide, by decide, by decide⟩,
   c5_mask_stable "123:xyz" "ok 123:xyz" (by decide) (by decide) (by decide) (by decide)
     (by decide)⟩

/-- Witness: the quantified part of the claim C6 theorem applied at a concrete update. -/
theorem c6_delivery_pacing_witness :
    "q" ≠ ""
    ∧ (replies (handleMessageText (some 1) true (some "q") (some "prev") ["a", ""])
         = (["a", ""].filter (fun m => !(m == "")))
           ++ (if ["a", ""].all (fun m => m == "") then [tCannotUnderstand] else [])
       ∧ deliveryLoop ["a", ""]
         = ((["a", ""].filter (fun m => !(m == "")))).flatMap
             (fun m => [Ev.delayMs 100, Ev.reply m])) :=
  ⟨by decide, c6_delivery_pacing.1 (some 1) (some "prev") ["a", ""] "q" (by decide)⟩

/-- Witness: the claim C7 theorem applied at a concrete captioned photo update. -/
theorem c7_caption_before_photo_witness :
    ("p" ≠ "" ∧ "cap" ≠ "")
    ∧ storeInserts (allMessagesHandler "TOK" (some 5)
        { replyToMessage := none, text := none, caption := some "cap", photo := some "p" }
        none [])
      = { payload := "cap", userId := jsString (some 5), senderId := jsString (some 5),
          type := EntryType.text, order := none }
        :: { payload := maskBotToken "TOK" (getFileUrl "TOK" "p") MaskAction.mask,
             userId := jsString (some 5), senderId := jsString (some 5),
             type := EntryType.photo, order := none }
        :: (if truthy none then
              [{ payload := (none : Option String).getD "", userId := jsString (some 5),
                 senderId := jsString (some 5), type := EntryType.text, order := none }]
            else []) :=
  ⟨⟨by decide, by decide⟩, c7_caption_before_photo "TOK" 5 "p" "cap" none (by decide) (by decide)⟩

/-- Witness: the quantified part of the claim C10 theorem applied at a concrete photo
update whose text is the empty string. -/
theorem c10_caption_fallback_witness :
    "p" ≠ ""
    ∧ (allMessagesHandler "TOK" (some 9)
           { replyToMessage := none, text := some "", caption := some "fallback",
             photo := some "p" }
           none []
         = handlePhoto "TOK" (some 9) (getFileUrl "TOK" "p")
             (jsOr (some "") (some "fallback")) none
       ∧ jsOr (some "") (some "fallback")
           = (match some "" with
              | some s => if s = "" then some "fallback" else some s
              | none => some "fallback")) :=
  ⟨by decide,
   c10_caption_fallback.1 "TOK" (some 9) none (some "") (some "fallback") none "p" []
     (by decide)⟩
